import Mathlib

/-!
Verification of the compaction core of goleveldb (src/leveldb/db_compaction.go).

The merge loop of `tableCompaction` (the `table@build` transact body,
lines 383-544), the compaction error state machine `compactionError`
(lines 112-167), the retry/backoff logic of `compactionTransact`
(lines 175-258), the abort/rollback unwinding (lines 176-185 and 535-544)
and the level selection of `tableRangeCompaction` (lines 562-585) are
embedded as pure Lean functions below.  Collaborators that live outside
this file (the internal-key codec `parseIkey`, the comparator, the
session predicates `shouldStopBefore` and `baseLevelForKey`, the table
writer byte accounting and the file store) are modelled as explicit
parameters or small abstract structures, following the words of the
specification for their behaviour.
-/

set_option maxHeartbeats 1000000

namespace LevelDB

/-- Key kinds of an internal key. The kind constants (ktDel, ktVal) live in
the key codec, outside this source file. -/
inductive KType where
  | del
  | val
deriving DecidableEq

/-- Result of a successful parseIkey: user key, sequence number and kind. -/
structure Parsed where
  ukey : List Nat
  seq : Nat
  kt : KType
deriving DecidableEq

/-- Modelled from the spec: one record yielded by the merging iterator.
`raw` is the internal key byte string handed to the table writer verbatim,
`value` the record value, and `parsed` the outcome of `parseIkey` on `raw`
(`none` models a corruption error of the parse; the codec itself lives
outside this file). -/
structure Rec where
  parsed : Option Parsed
  raw : List Nat
  value : List Nat
deriving DecidableEq

/-- Modelled from the spec: the sentinel `kMaxSeq` used as the plus-infinity
initial value of `lastSeq` on the first occurrence of a user key. The key
codec defines it as `(1 <<< 56) - 1`. -/
def kMaxSeq : Nat := 2 ^ 56 - 1

/-- The environment of one `table@build` merge: `minSeq` captured once at
compaction start, the strict-compaction option, the output table size
threshold, and the two session predicates `shouldStopBefore` (on the raw
internal key) and `baseLevelForKey` (on a user key), which are version
queries implemented outside this file and therefore taken as parameters. -/
structure MergeEnv where
  minSeq : Nat
  strict : Bool
  tableSize : Nat
  ssb : List Nat → Bool
  base : List Nat → Bool

/-- An output table is the list of records appended to one table writer. -/
abbrev Table := List Rec

/-- Modelled from the spec: the serialized length reported by the table
writer, used only against the size threshold; modelled as the total length
of the appended keys and values. -/
def twBytesLen (t : Table) : Nat := (t.map (fun r => r.raw.length + r.value.length)).sum

/-- The retry snapshot of the merge: the six variables
`snapHasLastUkey, snapLastUkey, snapLastSeq, snapIter, snapKerrCnt,
snapDropCnt` of `tableCompaction`. -/
structure Snap where
  hasLastUkey : Bool
  lastUkey : List Nat
  lastSeq : Nat
  iter : Nat
  kerrCnt : Nat
  dropCnt : Nat
deriving DecidableEq

/-- The full state of one attempt of the merge loop: the per-user-key
tracking triple, the two counters, the snapshot scheduling flag, the
current snapshot, the open table writer (`none` when no writer is open),
the finished output tables staged in the session record, and the loop
index `i`.  `snapOuts` records the staged outputs at the moment the
current snapshot was captured; it shadows `outs` and carries no
information of its own (at capture time the two coincide). -/
@[ext]
structure LoopSt where
  hasLastUkey : Bool
  lastUkey : List Nat
  lastSeq : Nat
  kerrCnt : Nat
  dropCnt : Nat
  snapSched : Bool
  snap : Snap
  snapOuts : List Table
  tw : Option Table
  outs : List Table
  i : Nat
deriving DecidableEq

/-- The state that survives a failed attempt of the `table@build` exec:
the snapshot variables and the tables already added to the session
record. -/
structure GState where
  snap : Snap
  outs : List Table
deriving DecidableEq

/-- Attempt initialisation (lines 384-389): reinstate the bookkeeping from
the snapshot, keep the staged outputs, schedule a snapshot capture exactly
when `snapIter == 0`, and start the iterator from the beginning. -/
def initSt (g : GState) : LoopSt where
  hasLastUkey := g.snap.hasLastUkey
  lastUkey := g.snap.lastUkey
  lastSeq := g.snap.lastSeq
  kerrCnt := g.snap.kerrCnt
  dropCnt := g.snap.dropCnt
  snapSched := g.snap.iter == 0
  snap := g.snap
  snapOuts := g.outs
  tw := none
  outs := g.outs
  i := 0

/-- The zero-initialised global state of `tableCompaction` before the first
attempt (lines 369-378). -/
def g0 : GState := ⟨⟨false, [], 0, 0, 0, 0⟩, []⟩

/-- Advance the loop index (the `i++` of the for loop). -/
def bumpI (st : LoopSt) : LoopSt := { st with i := st.i + 1 }

/-- Set the loop index (used to state resumption lemmas). -/
def setI (j : Nat) (st : LoopSt) : LoopSt := { st with i := j }

/-- Lines 427-434: if the key parsed and `shouldStopBefore` holds and a
writer is open, finish the current output table and schedule a snapshot. -/
def stepSSB (env : MergeEnv) (r : Rec) (st : LoopSt) : LoopSt :=
  if r.parsed.isSome && env.ssb r.raw && st.tw.isSome then
    { st with outs := st.outs ++ [st.tw.getD []], tw := none, snapSched := true }
  else st

/-- The snapshot value captured at loop index `st.i` (lines 439-444). -/
def capSnap (st : LoopSt) : Snap :=
  ⟨st.hasLastUkey, st.lastUkey, st.lastSeq, st.i, st.kerrCnt, st.dropCnt⟩

/-- Lines 438-446: capture the scheduled snapshot. -/
def stepSnap (st : LoopSt) : LoopSt :=
  if st.snapSched then
    { st with snap := capSnap st, snapOuts := st.outs, snapSched := false }
  else st

/-- Outcome of the key-processing block of one iteration. -/
inductive Mid where
  | strictErr
  | dropped (st : LoopSt)
  | toWrite (st : LoopSt)

/-- Lines 449-454: on the first occurrence of a user key (no tracked key
yet, or a different tracked key under the user comparator), start tracking
it with the `kMaxSeq` sentinel as `lastSeq`. -/
def keyTrack (st : LoopSt) (p : Parsed) : LoopSt :=
  if st.hasLastUkey = false ∨ st.lastUkey ≠ p.ukey then
    { st with hasLastUkey := true, lastUkey := p.ukey, lastSeq := kMaxSeq }
  else st

/-- Lines 448-484: the per-user-key tracking and the two drop rules for a
well-formed key, and the strict/lenient handling of a corrupt key. -/
def stepKey (env : MergeEnv) (r : Rec) (st : LoopSt) : Mid :=
  match r.parsed with
  | some p =>
    if (keyTrack st p).lastSeq ≤ env.minSeq ∨
        (p.kt = KType.del ∧ p.seq ≤ env.minSeq ∧ env.base (keyTrack st p).lastUkey = true) then
      Mid.dropped { keyTrack st p with lastSeq := p.seq, dropCnt := (keyTrack st p).dropCnt + 1 }
    else
      Mid.toWrite { keyTrack st p with lastSeq := p.seq }
  | none =>
    if env.strict then Mid.strictErr
    else
      Mid.toWrite { st with hasLastUkey := false, lastUkey := [], lastSeq := kMaxSeq,
                            kerrCnt := st.kerrCnt + 1 }

/-- Lines 486-518: append the record to the (possibly freshly created)
writer, and finish the table when the size threshold is reached. -/
def stepWrite (env : MergeEnv) (r : Rec) (st : LoopSt) : LoopSt :=
  if env.tableSize ≤ twBytesLen (st.tw.getD [] ++ [r]) then
    { st with tw := none, outs := st.outs ++ [st.tw.getD [] ++ [r]], snapSched := true }
  else
    { st with tw := some (st.tw.getD [] ++ [r]) }

/-- The part of one iteration that runs before the record is written:
boundary finish, snapshot capture, then key processing. -/
def preWrite (env : MergeEnv) (r : Rec) (st : LoopSt) : Mid :=
  stepKey env r (stepSnap (stepSSB env r st))

/-- Result of one fault-free attempt: the staged output tables together
with the two counters, or the strict-mode parse error. -/
inductive Out where
  | ok (outs : List Table) (kerrCnt dropCnt : Nat)
  | err
deriving DecidableEq

/-- Lines 526-533: finish the last table when it is open and not empty. -/
def finishOut (st : LoopSt) : Out :=
  match st.tw with
  | some t => if t = [] then Out.ok st.outs st.kerrCnt st.dropCnt
              else Out.ok (st.outs ++ [t]) st.kerrCnt st.dropCnt
  | none => Out.ok st.outs st.kerrCnt st.dropCnt

/-- One fault-free attempt of the `table@build` exec (lines 414-534): walk
the remaining records, skipping while `i < snapIter`, and process each. -/
def go (env : MergeEnv) : List Rec → LoopSt → Out
  | [], st => finishOut st
  | r :: rs, st =>
    if st.i < st.snap.iter then go env rs (bumpI st)
    else
      match preWrite env r st with
      | Mid.strictErr => Out.err
      | Mid.dropped st3 => go env rs (bumpI st3)
      | Mid.toWrite st3 => go env rs (bumpI (stepWrite env r st3))

/-- Result of one attempt with a fault injected: either it ran to its
ordinary end, or it aborted with an I/O error at the write point of
iteration `ff`, keeping the state that survives in the enclosing
`tableCompaction` frame (the snapshot and the staged outputs). -/
inductive FOut where
  | done (o : Out)
  | faulted (g : GState)
deriving DecidableEq

/-- One attempt of the exec with a transient I/O fault injected at the
table create/append point of iteration `ff` (lines 486-508, where
`tops.create` and `tw.append` can fail). Identical to `go` until the
fault fires. -/
def goF (env : MergeEnv) (ff : Nat) : List Rec → LoopSt → FOut
  | [], st => FOut.done (finishOut st)
  | r :: rs, st =>
    if st.i < st.snap.iter then goF env ff rs (bumpI st)
    else
      match preWrite env r st with
      | Mid.strictErr => FOut.done Out.err
      | Mid.dropped st3 => goF env ff rs (bumpI st3)
      | Mid.toWrite st3 =>
        if st3.i = ff then FOut.faulted ⟨st3.snap, st3.outs⟩
        else goF env ff rs (bumpI (stepWrite env r st3))

/-- The retry loop of `compactionTransact` around the `table@build` exec:
run the attempts with the given fault schedule (one injected fault index
per failing attempt), then a final fault-free attempt. An attempt that
completes without hitting its fault ends the transact. -/
def runFaulty (env : MergeEnv) (recs : List Rec) : List Nat → GState → Out
  | [], g => go env recs (initSt g)
  | f :: fs, g =>
    match goF env f recs (initSt g) with
    | FOut.done o => o
    | FOut.faulted g' => runFaulty env recs fs g'

/-! ### Basic facts about the iteration steps -/

theorem go_nil (env : MergeEnv) (st : LoopSt) : go env [] st = finishOut st := rfl

theorem go_cons (env : MergeEnv) (r : Rec) (rs : List Rec) (st : LoopSt) :
    go env (r :: rs) st =
      if st.i < st.snap.iter then go env rs (bumpI st)
      else
        match preWrite env r st with
        | Mid.strictErr => Out.err
        | Mid.dropped st3 => go env rs (bumpI st3)
        | Mid.toWrite st3 => go env rs (bumpI (stepWrite env r st3)) := rfl

theorem goF_nil (env : MergeEnv) (ff : Nat) (st : LoopSt) :
    goF env ff [] st = FOut.done (finishOut st) := rfl

theorem goF_cons (env : MergeEnv) (ff : Nat) (r : Rec) (rs : List Rec) (st : LoopSt) :
    goF env ff (r :: rs) st =
      if st.i < st.snap.iter then goF env ff rs (bumpI st)
      else
        match preWrite env r st with
        | Mid.strictErr => FOut.done Out.err
        | Mid.dropped st3 => goF env ff rs (bumpI st3)
        | Mid.toWrite st3 =>
          if st3.i = ff then FOut.faulted ⟨st3.snap, st3.outs⟩
          else goF env ff rs (bumpI (stepWrite env r st3)) := rfl

theorem stepSSB_i (env : MergeEnv) (r : Rec) (st : LoopSt) :
    (stepSSB env r st).i = st.i := by
  unfold stepSSB; split <;> rfl

theorem stepSSB_snap (env : MergeEnv) (r : Rec) (st : LoopSt) :
    (stepSSB env r st).snap = st.snap := by
  unfold stepSSB; split <;> rfl

theorem stepSSB_snapOuts (env : MergeEnv) (r : Rec) (st : LoopSt) :
    (stepSSB env r st).snapOuts = st.snapOuts := by
  unfold stepSSB; split <;> rfl

theorem stepSSB_data (env : MergeEnv) (r : Rec) (st : LoopSt) :
    (stepSSB env r st).hasLastUkey = st.hasLastUkey ∧
    (stepSSB env r st).lastUkey = st.lastUkey ∧
    (stepSSB env r st).lastSeq = st.lastSeq ∧
    (stepSSB env r st).kerrCnt = st.kerrCnt ∧
    (stepSSB env r st).dropCnt = st.dropCnt := by
  unfold stepSSB; split <;> simp

theorem stepSSB_of_parsed_none (env : MergeEnv) (r : Rec) (st : LoopSt)
    (h : r.parsed = none) : stepSSB env r st = st := by
  unfold stepSSB; simp [h]

theorem stepSSB_sched_tw (env : MergeEnv) (r : Rec) (st : LoopSt)
    (h : (stepSSB env r st).snapSched = true)
    (h0 : st.snapSched = true → st.tw = none) :
    (stepSSB env r st).tw = none := by
  unfold stepSSB at h ⊢
  split at h
  · next hc => rw [if_pos hc]
  · next hc => rw [if_neg hc]; exact h0 h

theorem stepSSB_not_fired (env : MergeEnv) (r : Rec) (st : LoopSt)
    (h : (stepSSB env r st).snapSched = false) :
    stepSSB env r st = st ∧ st.snapSched = false := by
  unfold stepSSB at h ⊢
  split at h
  · simp at h
  · next hc => rw [if_neg hc]; exact ⟨rfl, h⟩

theorem stepSnap_i (st : LoopSt) : (stepSnap st).i = st.i := by
  unfold stepSnap; split <;> rfl

theorem stepSnap_outs (st : LoopSt) : (stepSnap st).outs = st.outs := by
  unfold stepSnap; split <;> rfl

theorem stepSnap_tw (st : LoopSt) : (stepSnap st).tw = st.tw := by
  unfold stepSnap; split <;> rfl

theorem stepSnap_data (st : LoopSt) :
    (stepSnap st).hasLastUkey = st.hasLastUkey ∧
    (stepSnap st).lastUkey = st.lastUkey ∧
    (stepSnap st).lastSeq = st.lastSeq ∧
    (stepSnap st).kerrCnt = st.kerrCnt ∧
    (stepSnap st).dropCnt = st.dropCnt := by
  unfold stepSnap; split <;> simp

theorem stepSnap_of_sched_true (st : LoopSt) (h : st.snapSched = true) :
    stepSnap st = { st with snap := capSnap st, snapOuts := st.outs, snapSched := false } := by
  unfold stepSnap; simp [h]

theorem stepSnap_of_sched_false (st : LoopSt) (h : st.snapSched = false) :
    stepSnap st = st := by
  unfold stepSnap; simp [h]

theorem keyTrack_fields (st : LoopSt) (p : Parsed) :
    (keyTrack st p).snap = st.snap ∧ (keyTrack st p).snapOuts = st.snapOuts ∧
    (keyTrack st p).outs = st.outs ∧ (keyTrack st p).tw = st.tw ∧
    (keyTrack st p).snapSched = st.snapSched ∧ (keyTrack st p).i = st.i ∧
    (keyTrack st p).kerrCnt = st.kerrCnt ∧ (keyTrack st p).dropCnt = st.dropCnt := by
  unfold keyTrack; split <;> simp

theorem stepKey_dropped_fields (env : MergeEnv) (r : Rec) (st st3 : LoopSt)
    (h : stepKey env r st = Mid.dropped st3) :
    st3.snap = st.snap ∧ st3.snapOuts = st.snapOuts ∧ st3.outs = st.outs ∧
    st3.tw = st.tw ∧ st3.snapSched = st.snapSched ∧ st3.i = st.i ∧
    st3.kerrCnt = st.kerrCnt := by
  cases hp : r.parsed with
  | some p =>
    simp only [stepKey, hp] at h
    split at h
    · simp only [Mid.dropped.injEq] at h
      subst h
      simp [keyTrack_fields]
    · simp at h
  | none =>
    simp only [stepKey, hp] at h
    split at h <;> simp at h

theorem stepKey_toWrite_fields (env : MergeEnv) (r : Rec) (st st3 : LoopSt)
    (h : stepKey env r st = Mid.toWrite st3) :
    st3.snap = st.snap ∧ st3.snapOuts = st.snapOuts ∧ st3.outs = st.outs ∧
    st3.tw = st.tw ∧ st3.snapSched = st.snapSched ∧ st3.i = st.i ∧
    st3.dropCnt = st.dropCnt := by
  cases hp : r.parsed with
  | some p =>
    simp only [stepKey, hp] at h
    split at h
    · simp at h
    · simp only [Mid.toWrite.injEq] at h
      subst h
      simp [keyTrack_fields]
  | none =>
    simp only [stepKey, hp] at h
    split at h
    · simp at h
    · simp only [Mid.toWrite.injEq] at h
      subst h
      simp

theorem stepWrite_snap (env : MergeEnv) (r : Rec) (st : LoopSt) :
    (stepWrite env r st).snap = st.snap := by
  unfold stepWrite; split <;> rfl

theorem stepWrite_snapOuts (env : MergeEnv) (r : Rec) (st : LoopSt) :
    (stepWrite env r st).snapOuts = st.snapOuts := by
  unfold stepWrite; split <;> rfl

theorem stepWrite_i (env : MergeEnv) (r : Rec) (st : LoopSt) :
    (stepWrite env r st).i = st.i := by
  unfold stepWrite; split <;> rfl

theorem stepWrite_cases (env : MergeEnv) (r : Rec) (st : LoopSt) :
    ((stepWrite env r st).snapSched = true ∧ (stepWrite env r st).tw = none ∧
      (stepWrite env r st).outs = st.outs ++ [st.tw.getD [] ++ [r]]) ∨
    ((stepWrite env r st).snapSched = st.snapSched ∧
      (stepWrite env r st).tw = some (st.tw.getD [] ++ [r]) ∧
      (stepWrite env r st).outs = st.outs) := by
  unfold stepWrite
  split
  · left; simp
  · right; simp

theorem finishOut_setI (j : Nat) (st : LoopSt) :
    finishOut (setI j st) = finishOut st := rfl

theorem finishOut_bumpI (st : LoopSt) :
    finishOut (bumpI st) = finishOut st := rfl

/-- Helper: dropping one more element of a list whose first dropped suffix
is known. -/
theorem drop_succ_of_drop_eq {α : Type} {l : List α} {n : Nat} {a : α} {t : List α}
    (h : l.drop n = a :: t) : l.drop (n + 1) = t := by
  have h1 : l.drop (n + 1) = (l.drop n).drop 1 := by
    rw [List.drop_drop, Nat.add_comm]
  rw [h1, h]
  rfl

/-- Skipping: running an attempt whose index is still below the snapshot
index just walks forward; the run is the run of the suffix with the index
set to the target. -/
theorem go_skip (env : MergeEnv) (l : List Rec) (st : LoopSt) (j : Nat)
    (h1 : st.i ≤ j) (h2 : j ≤ st.snap.iter) :
    go env l st = go env (l.drop (j - st.i)) (setI j st) := by
  induction l generalizing st with
  | nil =>
    rw [List.drop_nil, go_nil, go_nil, finishOut_setI]
  | cons r l ih =>
    rcases Nat.lt_or_ge st.i j with hlt | hge
    · have hskip : st.i < st.snap.iter := Nat.lt_of_lt_of_le hlt h2
      have hstep : go env (r :: l) st = go env l (bumpI st) := by
        rw [go_cons]; simp [hskip]
      obtain ⟨k, hk⟩ : ∃ k, j - st.i = k + 1 := ⟨j - st.i - 1, by omega⟩
      have hih := ih (bumpI st) (by simp [bumpI]; omega) h2
      have hk2 : j - (bumpI st).i = k := by simp [bumpI]; omega
      rw [hstep, hih, hk2, hk]
      rfl
    · have heq : st.i = j := Nat.le_antisymm h1 hge
      subst heq
      rw [Nat.sub_self, List.drop_zero]
      rfl

theorem stepSSB_of_tw_none (env : MergeEnv) (r : Rec) (st : LoopSt)
    (h : st.tw = none) : stepSSB env r st = st := by
  unfold stepSSB; simp [h]

/-- Alignment of a resumed attempt with the original one: starting a fresh
attempt from the snapshot captured while processing record `st1.i` (with
the staged outputs of that moment) reaches, at record `st1.i`, exactly the
post-capture state of the original attempt. -/
theorem resume_align (env : MergeEnv) (r : Rec) (st1 : LoopSt)
    (hsched : st1.snapSched = true) (htw : st1.tw = none) :
    stepSnap (stepSSB env r (setI st1.i (initSt ⟨capSnap st1, st1.outs⟩))) = stepSnap st1 := by
  rw [stepSSB_of_tw_none env r _ (by rfl)]
  rw [stepSnap_of_sched_true st1 hsched]
  by_cases hi : st1.i = 0
  · rw [stepSnap_of_sched_true _ (by simp [setI, initSt, capSnap, hi])]
    ext <;> simp [setI, initSt, capSnap, htw, hi]
  · rw [stepSnap_of_sched_false _ (by simp [setI, initSt, capSnap, hi])]
    ext <;> simp [setI, initSt, capSnap, htw, hi]

/-- The resumption invariant of the merge loop: restarting an attempt from
the current snapshot and the outputs staged at its capture reproduces the
remaining run; when no capture is pending the staged outputs coincide with
the captured ones; a pending capture implies no open writer; and the
remaining records are the suffix of the full input at the loop index. -/
structure MInv (env : MergeEnv) (full rs : List Rec) (st : LoopSt) : Prop where
  resumeEq : go env full (initSt ⟨st.snap, st.snapOuts⟩) = go env rs st
  outsEq : st.snapSched = false → st.outs = st.snapOuts
  twNone : st.snapSched = true → st.tw = none
  dropEq : full.drop st.i = rs

/-- The star equality of the capture case: when the current iteration
captures a snapshot, a fresh attempt started from that snapshot and the
currently staged outputs reproduces the remaining run from this record. -/
theorem capture_star (env : MergeEnv) (full : List Rec) (r : Rec) (rs : List Rec)
    (st : LoopSt) (hs : ¬ st.i < st.snap.iter) (hdrop : full.drop st.i = r :: rs)
    (hsc : (stepSSB env r st).snapSched = true) (htw1 : (stepSSB env r st).tw = none) :
    go env full (initSt ⟨capSnap (stepSSB env r st), (stepSSB env r st).outs⟩) =
      go env (r :: rs) st := by
  have hi1 : (stepSSB env r st).i = st.i := stepSSB_i env r st
  have hskip := go_skip env full
      (initSt ⟨capSnap (stepSSB env r st), (stepSSB env r st).outs⟩) st.i
      (Nat.zero_le _) (by simp [initSt, capSnap, hi1])
  rw [show (initSt ⟨capSnap (stepSSB env r st), (stepSSB env r st).outs⟩).i = 0 from rfl]
    at hskip
  rw [hskip, Nat.sub_zero, hdrop, go_cons]
  have hni : ¬ (setI st.i (initSt ⟨capSnap (stepSSB env r st), (stepSSB env r st).outs⟩)).i <
      (setI st.i (initSt ⟨capSnap (stepSSB env r st), (stepSSB env r st).outs⟩)).snap.iter := by
    simp [setI, initSt, capSnap, hi1]
  simp only [if_neg hni]
  have halign : preWrite env r
      (setI st.i (initSt ⟨capSnap (stepSSB env r st), (stepSSB env r st).outs⟩)) =
      preWrite env r st := by
    show stepKey env r
        (stepSnap (stepSSB env r
          (setI st.i (initSt ⟨capSnap (stepSSB env r st), (stepSSB env r st).outs⟩)))) =
      stepKey env r (stepSnap (stepSSB env r st))
    rw [← hi1, resume_align env r (stepSSB env r st) hsc htw1]
  rw [halign, go_cons]
  simp only [if_neg hs]

/-- The single-attempt core of retry idempotence: under the resumption
invariant, an attempt that aborts with an injected fault leaves a state
from which the next fault-free attempt computes exactly the value of the
current remaining run. -/
theorem goF_faulted (env : MergeEnv) (ff : Nat) (full : List Rec) :
    ∀ (rs : List Rec) (st : LoopSt) (g' : GState),
      MInv env full rs st → goF env ff rs st = FOut.faulted g' →
      go env full (initSt g') = go env rs st := by
  intro rs
  induction rs with
  | nil =>
    intro st g' hInv hF
    rw [goF_nil] at hF
    simp at hF
  | cons r rs ih =>
    intro st g' hInv hF
    rw [goF_cons] at hF
    by_cases hs : st.i < st.snap.iter
    · -- skipped iteration: only the index advances
      simp only [if_pos hs] at hF
      have hgo : go env (r :: rs) st = go env rs (bumpI st) := by
        rw [go_cons]; simp [hs]
      have hInv2 : MInv env full rs (bumpI st) :=
        ⟨hInv.resumeEq.trans hgo, hInv.outsEq, hInv.twNone,
          drop_succ_of_drop_eq hInv.dropEq⟩
      rw [hgo]
      exact ih (bumpI st) g' hInv2 hF
    · simp only [if_neg hs] at hF
      have hgo0 : go env (r :: rs) st =
          (match preWrite env r st with
           | Mid.strictErr => Out.err
           | Mid.dropped st3 => go env rs (bumpI st3)
           | Mid.toWrite st3 => go env rs (bumpI (stepWrite env r st3))) := by
        rw [go_cons]; simp only [if_neg hs]
      by_cases hsc : (stepSSB env r st).snapSched = true
      · -- a snapshot is captured while processing this record
        have htw1 : (stepSSB env r st).tw = none :=
          stepSSB_sched_tw env r st hsc hInv.twNone
        have hstar := capture_star env full r rs st hs hInv.dropEq hsc htw1
        have h2snap : (stepSnap (stepSSB env r st)).snap = capSnap (stepSSB env r st) := by
          rw [stepSnap_of_sched_true _ hsc]
        have h2souts : (stepSnap (stepSSB env r st)).snapOuts = (stepSSB env r st).outs := by
          rw [stepSnap_of_sched_true _ hsc]
        have h2sched : (stepSnap (stepSSB env r st)).snapSched = false := by
          rw [stepSnap_of_sched_true _ hsc]
        have h2outs : (stepSnap (stepSSB env r st)).outs = (stepSSB env r st).outs :=
          stepSnap_outs _
        have h2tw : (stepSnap (stepSSB env r st)).tw = none := by
          rw [stepSnap_tw]; exact htw1
        have h2i : (stepSnap (stepSSB env r st)).i = st.i := by
          rw [stepSnap_i]; exact stepSSB_i env r st
        cases hpw : preWrite env r st with
        | strictErr => simp only [hpw] at hF; simp at hF
        | dropped st3 =>
          simp only [hpw] at hF
          obtain ⟨k1, k2, k3, k4, k5, k6, k7⟩ :=
            stepKey_dropped_fields env r (stepSnap (stepSSB env r st)) st3 hpw
          have hres : go env full (initSt ⟨(bumpI st3).snap, (bumpI st3).snapOuts⟩) =
              go env rs (bumpI st3) := by
            show go env full (initSt ⟨st3.snap, st3.snapOuts⟩) = go env rs (bumpI st3)
            rw [k1, k2, h2snap, h2souts, hstar, hgo0]
            simp only [hpw]
          have hInv2 : MInv env full rs (bumpI st3) := by
            refine ⟨hres, ?_, ?_, ?_⟩
            · intro _
              show st3.outs = st3.snapOuts
              rw [k3, k2, h2souts, h2outs]
            · intro hh
              rw [show (bumpI st3).snapSched = st3.snapSched from rfl, k5, h2sched] at hh
              simp at hh
            · show full.drop (st3.i + 1) = rs
              rw [k6, h2i]
              exact drop_succ_of_drop_eq hInv.dropEq
          rw [hgo0]
          simp only [hpw]
          exact ih (bumpI st3) g' hInv2 hF
        | toWrite st3 =>
          simp only [hpw] at hF
          obtain ⟨k1, k2, k3, k4, k5, k6, k7⟩ :=
            stepKey_toWrite_fields env r (stepSnap (stepSSB env r st)) st3 hpw
          by_cases hfault : st3.i = ff
          · simp only [if_pos hfault] at hF
            simp only [FOut.faulted.injEq] at hF
            rw [← hF, k1, k3, h2snap, h2outs, hstar]
          · simp only [if_neg hfault] at hF
            have hres : go env full
                (initSt ⟨(bumpI (stepWrite env r st3)).snap,
                         (bumpI (stepWrite env r st3)).snapOuts⟩) =
                go env rs (bumpI (stepWrite env r st3)) := by
              show go env full
                  (initSt ⟨(stepWrite env r st3).snap, (stepWrite env r st3).snapOuts⟩) =
                go env rs (bumpI (stepWrite env r st3))
              rw [stepWrite_snap, stepWrite_snapOuts, k1, k2, h2snap, h2souts, hstar, hgo0]
              simp only [hpw, if_neg hfault]
            have hInv2 : MInv env full rs (bumpI (stepWrite env r st3)) := by
              refine ⟨hres, ?_, ?_, ?_⟩
              · intro hh
                rcases stepWrite_cases env r st3 with ⟨hw1, hw2, hw3⟩ | ⟨hw1, hw2, hw3⟩
                · rw [show (bumpI (stepWrite env r st3)).snapSched =
                      (stepWrite env r st3).snapSched from rfl, hw1] at hh
                  simp at hh
                · show (stepWrite env r st3).outs = (stepWrite env r st3).snapOuts
                  rw [hw3, stepWrite_snapOuts, k3, k2, h2souts, h2outs]
              · intro _
                rcases stepWrite_cases env r st3 with ⟨hw1, hw2, hw3⟩ | ⟨hw1, hw2, hw3⟩
                · exact hw2
                · show (stepWrite env r st3).tw = none
                  rw [hw2]
                  rw [show (bumpI (stepWrite env r st3)).snapSched =
                      (stepWrite env r st3).snapSched from rfl] at *
                  simp_all [k4, k5, h2sched, h2tw]
              · show full.drop ((stepWrite env r st3).i + 1) = rs
                rw [stepWrite_i, k6, h2i]
                exact drop_succ_of_drop_eq hInv.dropEq
            rw [hgo0]
            simp only [hpw, if_neg hfault]
            exact ih (bumpI (stepWrite env r st3)) g' hInv2 hF
      · -- no capture: the snapshot state is untouched this iteration
        have hsc' : (stepSSB env r st).snapSched = false := by
          simpa using hsc
        obtain ⟨hid, hsched0⟩ := stepSSB_not_fired env r st hsc'
        have hsnapid : stepSnap (stepSSB env r st) = st := by
          rw [hid, stepSnap_of_sched_false st hsched0]
        have houts : st.outs = st.snapOuts := hInv.outsEq hsched0
        cases hpw : preWrite env r st with
        | strictErr => simp only [hpw] at hF; simp at hF
        | dropped st3 =>
          simp only [hpw] at hF
          obtain ⟨k1, k2, k3, k4, k5, k6, k7⟩ :=
            stepKey_dropped_fields env r (stepSnap (stepSSB env r st)) st3 hpw
          rw [hsnapid] at k1 k2 k3 k4 k5 k6
          have hres : go env full (initSt ⟨(bumpI st3).snap, (bumpI st3).snapOuts⟩) =
              go env rs (bumpI st3) := by
            show go env full (initSt ⟨st3.snap, st3.snapOuts⟩) = go env rs (bumpI st3)
            rw [k1, k2, hInv.resumeEq, hgo0]
            simp only [hpw]
          have hInv2 : MInv env full rs (bumpI st3) := by
            refine ⟨hres, ?_, ?_, ?_⟩
            · intro _
              show st3.outs = st3.snapOuts
              rw [k3, k2, houts]
            · intro hh
              rw [show (bumpI st3).snapSched = st3.snapSched from rfl, k5, hsched0] at hh
              simp at hh
            · show full.drop (st3.i + 1) = rs
              rw [k6]
              exact drop_succ_of_drop_eq hInv.dropEq
          rw [hgo0]
          simp only [hpw]
          exact ih (bumpI st3) g' hInv2 hF
        | toWrite st3 =>
          simp only [hpw] at hF
          obtain ⟨k1, k2, k3, k4, k5, k6, k7⟩ :=
            stepKey_toWrite_fields env r (stepSnap (stepSSB env r st)) st3 hpw
          rw [hsnapid] at k1 k2 k3 k4 k5 k6
          by_cases hfault : st3.i = ff
          · simp only [if_pos hfault] at hF
            simp only [FOut.faulted.injEq] at hF
            rw [← hF, k1, k3, houts, hInv.resumeEq]
          · simp only [if_neg hfault] at hF
            have hres : go env full
                (initSt ⟨(bumpI (stepWrite env r st3)).snap,
                         (bumpI (stepWrite env r st3)).snapOuts⟩) =
                go env rs (bumpI (stepWrite env r st3)) := by
              show go env full
                  (initSt ⟨(stepWrite env r st3).snap, (stepWrite env r st3).snapOuts⟩) =
                go env rs (bumpI (stepWrite env r st3))
              rw [stepWrite_snap, stepWrite_snapOuts, k1, k2, hInv.resumeEq, hgo0]
              simp only [hpw, if_neg hfault]
            have hInv2 : MInv env full rs (bumpI (stepWrite env r st3)) := by
              refine ⟨hres, ?_, ?_, ?_⟩
              · intro hh
                rcases stepWrite_cases env r st3 with ⟨hw1, hw2, hw3⟩ | ⟨hw1, hw2, hw3⟩
                · rw [show (bumpI (stepWrite env r st3)).snapSched =
                      (stepWrite env r st3).snapSched from rfl, hw1] at hh
                  simp at hh
                · show (stepWrite env r st3).outs = (stepWrite env r st3).snapOuts
                  rw [hw3, stepWrite_snapOuts, k3, k2, houts]
              · intro hh
                rcases stepWrite_cases env r st3 with ⟨hw1, hw2, hw3⟩ | ⟨hw1, hw2, hw3⟩
                · exact hw2
                · rw [show (bumpI (stepWrite env r st3)).snapSched =
                      (stepWrite env r st3).snapSched from rfl, hw1, k5, hsched0] at hh
                  simp at hh
              · show full.drop ((stepWrite env r st3).i + 1) = rs
                rw [stepWrite_i, k6]
                exact drop_succ_of_drop_eq hInv.dropEq
            rw [hgo0]
            simp only [hpw, if_neg hfault]
            exact ih (bumpI (stepWrite env r st3)) g' hInv2 hF

/-- An attempt under fault injection that completes behaves exactly as the
fault-free attempt. -/
theorem goF_done (env : MergeEnv) (ff : Nat) :
    ∀ (l : List Rec) (st : LoopSt) (o : Out),
      goF env ff l st = FOut.done o → go env l st = o := by
  intro l
  induction l with
  | nil =>
    intro st o h
    rw [goF_nil] at h
    simp at h
    rw [go_nil]
    exact h
  | cons r rs ih =>
    intro st o h
    rw [goF_cons] at h
    rw [go_cons]
    by_cases hs : st.i < st.snap.iter
    · simp only [if_pos hs] at h ⊢
      exact ih _ _ h
    · simp only [if_neg hs] at h ⊢
      cases hpw : preWrite env r st with
      | strictErr => simp only [hpw] at h ⊢; simp at h; rw [← h]
      | dropped st3 => simp only [hpw] at h ⊢; exact ih _ _ h
      | toWrite st3 =>
        simp only [hpw] at h ⊢
        split at h
        · simp at h
        · exact ih _ _ h

/-- A faulted attempt leaves a state from which the fault-free rerun of the
whole input computes the fault-free result of the original attempt. -/
theorem goF_retry (env : MergeEnv) (recs : List Rec) (ff : Nat) (g g' : GState)
    (h : goF env ff recs (initSt g) = FOut.faulted g') :
    go env recs (initSt g') = go env recs (initSt g) := by
  refine goF_faulted env ff recs recs (initSt g) g' ⟨?_, fun _ => rfl, fun _ => rfl, rfl⟩ h
  rfl

/-- Retrying with any schedule of injected faults commits the same output
as a single fault-free run. -/
theorem runFaulty_eq (env : MergeEnv) (recs : List Rec) :
    ∀ (faults : List Nat) (g : GState),
      runFaulty env recs faults g = go env recs (initSt g) := by
  intro faults
  induction faults with
  | nil => intro g; rfl
  | cons f fs ih =>
    intro g
    cases hres : goF env f recs (initSt g) with
    | done o =>
      show (match goF env f recs (initSt g) with
            | FOut.done o => o
            | FOut.faulted g' => runFaulty env recs fs g') = go env recs (initSt g)
      rw [hres]
      exact (goF_done env f recs (initSt g) o hres).symm
    | faulted g' =>
      show (match goF env f recs (initSt g) with
            | FOut.done o => o
            | FOut.faulted g' => runFaulty env recs fs g') = go env recs (initSt g)
      rw [hres]
      show runFaulty env recs fs g' = go env recs (initSt g)
      rw [ih g', goF_retry env recs f g g' hres]

/-- Claim C3: when a table compaction exec attempt fails after finishing k
output tables, the retry restarts the merging iterator from the beginning,
skips the first snapIter records and reinstates the saved bookkeeping
(snapHasLastUkey, snapLastUkey, snapLastSeq, snapKerrCnt, snapDropCnt)
captured at the last output-table boundary, so for every schedule of
injected transient faults the committed set of output tables (contents and
cut points) and the final counters are identical to those of a fault-free
run over the same inputs. -/
theorem retry_idempotent_output (env : MergeEnv) (recs : List Rec) (faults : List Nat) :
    runFaulty env recs faults g0 = go env recs (initSt g0) :=
  runFaulty_eq env recs faults g0

/-! ### Rule A (claim C1) -/

/-- One iteration on a well-formed record whose user key is the tracked one
while `lastSeq ≤ minSeq` drops the record: no append happens, `dropCnt` is
incremented, and `lastSeq` becomes the sequence of the dropped record. -/
theorem ruleA_step (env : MergeEnv) (r : Rec) (rs : List Rec) (st : LoopSt) (p : Parsed)
    (hp : r.parsed = some p) (hhas : st.hasLastUkey = true) (huk : st.lastUkey = p.ukey)
    (hle : st.lastSeq ≤ env.minSeq) (hskip : ¬ st.i < st.snap.iter) :
    go env (r :: rs) st =
      go env rs (bumpI { stepSnap (stepSSB env r st) with
        lastSeq := p.seq
        dropCnt := (stepSnap (stepSSB env r st)).dropCnt + 1 }) := by
  rw [go_cons]
  simp only [if_neg hskip]
  have hd := stepSSB_data env r st
  have hd2 := stepSnap_data (stepSSB env r st)
  have hhas2 : (stepSnap (stepSSB env r st)).hasLastUkey = true := by
    rw [hd2.1, hd.1]; exact hhas
  have huk2 : (stepSnap (stepSSB env r st)).lastUkey = p.ukey := by
    rw [hd2.2.1, hd.2.1]; exact huk
  have hle2 : (stepSnap (stepSSB env r st)).lastSeq ≤ env.minSeq := by
    rw [hd2.2.2.1, hd.2.2.1]; exact hle
  have htrack : keyTrack (stepSnap (stepSSB env r st)) p = stepSnap (stepSSB env r st) := by
    unfold keyTrack
    rw [if_neg]
    push_neg
    exact ⟨by simp [hhas2], huk2⟩
  have hpw : preWrite env r st = Mid.dropped { stepSnap (stepSSB env r st) with
      lastSeq := p.seq
      dropCnt := (stepSnap (stepSSB env r st)).dropCnt + 1 } := by
    show stepKey env r (stepSnap (stepSSB env r st)) = _
    simp only [stepKey, hp, htrack]
    rw [if_pos (Or.inl hle2)]
  simp only [hpw]

/-- The user key bytes, records and environment of the Rule A scenario:
(a#5,"v5") then (a#3,"v3"), lenient mode, 2 MiB table size, no boundary
stops, no base level. -/
def envA (m : Nat) : MergeEnv := ⟨m, false, 2097152, fun _ => false, fun _ => false⟩

/-- The record (a#5,"v5") of the Rule A scenario. -/
def recA5 : Rec := ⟨some ⟨[97], 5, KType.val⟩, [97, 5, 1], [118, 53]⟩

/-- The record (a#3,"v3") of the Rule A scenario. -/
def recA3 : Rec := ⟨some ⟨[97], 3, KType.val⟩, [97, 3, 1], [118, 51]⟩

/-- Claim C1 counterexample: merging [(a#5,"v5"), (a#3,"v3")] with
minSeq = 0 emits both records and drops nothing, because Rule A compares
the tracked lastSeq = 5 against minSeq = 0; the claimed output (only
(a#5,"v5") with dropCnt = 1) is not produced. -/
theorem ruleA_example_minSeq0_counterexample :
    go (envA 0) [recA5, recA3] (initSt g0) = Out.ok [[recA5, recA3]] 0 0 ∧
    go (envA 0) [recA5, recA3] (initSt g0) ≠ Out.ok [[recA5]] 0 1 := by
  constructor
  · decide
  · decide

/-- Claim C1 (amended): a well-formed record whose user key equals the
previously tracked user key is dropped (no append, dropCnt incremented)
whenever the tracked lastSeq is at most minSeq; in particular merging
[(a#5,"v5"), (a#3,"v3")] with minSeq = 5 emits only (a#5,"v5") and yields
dropCnt = 1. -/
theorem ruleA_drop_and_example :
    (∀ (env : MergeEnv) (r : Rec) (rs : List Rec) (st : LoopSt) (p : Parsed),
      r.parsed = some p → st.hasLastUkey = true → st.lastUkey = p.ukey →
      st.lastSeq ≤ env.minSeq → ¬ st.i < st.snap.iter →
      go env (r :: rs) st =
        go env rs (bumpI { stepSnap (stepSSB env r st) with
          lastSeq := p.seq
          dropCnt := (stepSnap (stepSSB env r st)).dropCnt + 1 }))
  ∧ go (envA 5) [recA5, recA3] (initSt g0) = Out.ok [[recA5]] 0 1 := by
  constructor
  · intro env r rs st p hp hhas huk hle hskip
    exact ruleA_step env r rs st p hp hhas huk hle hskip
  · decide

/-- A state that tracks user key "a" with lastSeq = 5, as after processing
(a#5,"v5"). -/
def stW1 : LoopSt := { initSt g0 with hasLastUkey := true, lastUkey := [97], lastSeq := 5 }

theorem ruleA_drop_and_example_witness :
    go (envA 5) [recA3] stW1 =
      go (envA 5) [] (bumpI { stepSnap (stepSSB (envA 5) recA3 stW1) with
        lastSeq := 3
        dropCnt := (stepSnap (stepSSB (envA 5) recA3 stW1)).dropCnt + 1 }) :=
  ruleA_drop_and_example.1 (envA 5) recA3 [] stW1 ⟨[97], 3, KType.val⟩ rfl rfl rfl
    (by decide) (by decide)

/-! ### Rule B (claim C2) -/

/-- A record that, when well formed, is not an obsolete tombstone: being a
deletion with sequence at most minSeq forces the base-level predicate to
fail for its user key. -/
def goodRec (env : MergeEnv) (r : Rec) : Prop :=
  ∀ p, r.parsed = some p → p.kt = KType.del → p.seq ≤ env.minSeq → env.base p.ukey = false

/-- Every record of every listed table is no obsolete tombstone. -/
def goodTables (env : MergeEnv) (ts : List Table) : Prop :=
  ∀ t ∈ ts, ∀ r ∈ t, goodRec env r

/-- Every record of the open writer is no obsolete tombstone. -/
def goodTw (env : MergeEnv) (tw : Option Table) : Prop :=
  ∀ t, tw = some t → ∀ r ∈ t, goodRec env r

theorem keyTrack_lastUkey (st : LoopSt) (p : Parsed) :
    (keyTrack st p).lastUkey = p.ukey := by
  unfold keyTrack
  split
  · simp
  · next hc =>
    push_neg at hc
    exact hc.2

/-- A record that reaches the write section is no obsolete tombstone: it
survived the Rule B test. -/
theorem stepKey_toWrite_good (env : MergeEnv) (r : Rec) (st st3 : LoopSt)
    (h : stepKey env r st = Mid.toWrite st3) : goodRec env r := by
  intro p hp hdel hseq
  simp only [stepKey, hp] at h
  split at h
  · simp at h
  · next hc =>
    push_neg at hc
    rw [keyTrack_lastUkey st p] at hc
    cases hb : env.base p.ukey
    · rfl
    · exact absurd hb (hc.2 hdel hseq)

theorem stepSSB_good (env : MergeEnv) (r : Rec) (st : LoopSt)
    (h1 : goodTables env st.outs) (h2 : goodTw env st.tw) :
    goodTables env (stepSSB env r st).outs ∧ goodTw env (stepSSB env r st).tw := by
  unfold stepSSB
  split
  · constructor
    · intro t2 ht2 rr hrr
      rcases List.mem_append.mp ht2 with hm | hm
      · exact h1 t2 hm rr hrr
      · rw [List.mem_singleton.mp hm] at hrr
        cases htw : st.tw with
        | none => rw [htw] at hrr; simp at hrr
        | some t0 => rw [htw] at hrr; exact h2 t0 htw rr hrr
    · intro t2 ht2
      simp at ht2
  · exact ⟨h1, h2⟩

theorem stepSnap_good (env : MergeEnv) (st : LoopSt)
    (h1 : goodTables env st.outs) (h2 : goodTw env st.tw) :
    goodTables env (stepSnap st).outs ∧ goodTw env (stepSnap st).tw := by
  rw [show goodTables env (stepSnap st).outs = goodTables env st.outs by rw [stepSnap_outs],
      show goodTw env (stepSnap st).tw = goodTw env st.tw by rw [stepSnap_tw]]
  exact ⟨h1, h2⟩

theorem stepWrite_good (env : MergeEnv) (r : Rec) (st : LoopSt)
    (h1 : goodTables env st.outs) (h2 : goodTw env st.tw) (hr : goodRec env r) :
    goodTables env (stepWrite env r st).outs ∧ goodTw env (stepWrite env r st).tw := by
  have hcat : ∀ rr ∈ st.tw.getD [] ++ [r], goodRec env rr := by
    intro rr hrr
    rcases List.mem_append.mp hrr with hm | hm
    · cases htw : st.tw with
      | none => rw [htw] at hm; simp at hm
      | some t0 => rw [htw] at hm; exact h2 t0 htw rr hm
    · rw [List.mem_singleton.mp hm]
      exact hr
  unfold stepWrite
  split
  · constructor
    · intro t2 ht2 rr hrr
      rcases List.mem_append.mp ht2 with hm | hm
      · exact h1 t2 hm rr hrr
      · rw [List.mem_singleton.mp hm] at hrr
        exact hcat rr hrr
    · intro t2 ht2
      simp at ht2
  · constructor
    · exact h1
    · intro t2 ht2 rr hrr
      simp only [Option.some.injEq] at ht2
      rw [← ht2] at hrr
      exact hcat rr hrr

/-- The merge never emits an obsolete tombstone: every table of the result
of an attempt started from a state whose staged output satisfies the
invariant satisfies it as well. -/
theorem go_good (env : MergeEnv) :
    ∀ (rs : List Rec) (st : LoopSt), goodTables env st.outs → goodTw env st.tw →
      ∀ outs ke dr, go env rs st = Out.ok outs ke dr → goodTables env outs := by
  intro rs
  induction rs with
  | nil =>
    intro st h1 h2 outs ke dr h
    rw [go_nil] at h
    cases htw : st.tw with
    | none =>
      simp only [finishOut, htw, Out.ok.injEq] at h
      rw [← h.1]
      exact h1
    | some t =>
      simp only [finishOut, htw] at h
      split at h
      · simp only [Out.ok.injEq] at h
        rw [← h.1]
        exact h1
      · simp only [Out.ok.injEq] at h
        rw [← h.1]
        intro t2 ht2 rr hrr
        rcases List.mem_append.mp ht2 with hm | hm
        · exact h1 t2 hm rr hrr
        · rw [List.mem_singleton.mp hm] at hrr
          exact h2 t htw rr hrr
  | cons r rs ih =>
    intro st h1 h2 outs ke dr h
    rw [go_cons] at h
    by_cases hs : st.i < st.snap.iter
    · simp only [if_pos hs] at h
      exact ih (bumpI st) h1 h2 outs ke dr h
    · simp only [if_neg hs] at h
      obtain ⟨h1a, h2a⟩ := stepSSB_good env r st h1 h2
      obtain ⟨h1b, h2b⟩ := stepSnap_good env (stepSSB env r st) h1a h2a
      cases hpw : preWrite env r st with
      | strictErr =>
        simp only [hpw] at h
        exact absurd h (by simp)
      | dropped st3 =>
        simp only [hpw] at h
        obtain ⟨k1, k2, k3, k4, k5, k6, k7⟩ :=
          stepKey_dropped_fields env r (stepSnap (stepSSB env r st)) st3 hpw
        refine ih (bumpI st3) ?_ ?_ outs ke dr h
        · show goodTables env st3.outs
          rw [k3]; exact h1b
        · show goodTw env st3.tw
          rw [k4]; exact h2b
      | toWrite st3 =>
        simp only [hpw] at h
        obtain ⟨k1, k2, k3, k4, k5, k6, k7⟩ :=
          stepKey_toWrite_fields env r (stepSnap (stepSSB env r st)) st3 hpw
        have hst3o : goodTables env st3.outs := by rw [k3]; exact h1b
        have hst3t : goodTw env st3.tw := by rw [k4]; exact h2b
        have hgood : goodRec env r := stepKey_toWrite_good env r _ st3 hpw
        obtain ⟨h1c, h2c⟩ := stepWrite_good env r st3 hst3o hst3t hgood
        exact ih (bumpI (stepWrite env r st3)) h1c h2c outs ke dr h

/-- Claim C2: a well-formed deletion with sequence at most minSeq whose
user key satisfies baseLevelForKey is dropped by the merge, and
consequently such a tombstone is never present in the committed compacted
output: every well-formed deletion with sequence at most minSeq appearing
in any output table has a failing baseLevelForKey. -/
theorem ruleB_tombstone :
    (∀ (env : MergeEnv) (r : Rec) (st : LoopSt) (p : Parsed),
      r.parsed = some p → p.kt = KType.del → p.seq ≤ env.minSeq →
      env.base p.ukey = true →
      stepKey env r st = Mid.dropped { keyTrack st p with
        lastSeq := p.seq
        dropCnt := (keyTrack st p).dropCnt + 1 })
  ∧ (∀ (env : MergeEnv) (recs : List Rec) (outs : List Table) (ke dr : Nat),
      go env recs (initSt g0) = Out.ok outs ke dr →
      ∀ t ∈ outs, ∀ r ∈ t, ∀ p, r.parsed = some p → p.kt = KType.del →
        p.seq ≤ env.minSeq → env.base p.ukey = false) := by
  constructor
  · intro env r st p hp hdel hle hbase
    simp only [stepKey, hp]
    rw [if_pos (Or.inr ⟨hdel, hle, by rw [keyTrack_lastUkey]; exact hbase⟩)]
  · intro env recs outs ke dr h t ht r hr p hp hdel hle
    refine go_good env recs (initSt g0) ?_ ?_ outs ke dr h t ht r hr p hp hdel hle
    · intro t2 ht2
      exact absurd ht2 (List.not_mem_nil t2)
    · intro t2 ht2
      exact Option.noConfusion ht2

/-- The environment and record of the Rule B witness: a deletion a#3 with
minSeq = 5 and a failing base-level predicate is kept in the output. -/
def envW2 : MergeEnv := ⟨5, false, 2097152, fun _ => false, fun _ => false⟩

/-- The deletion record (a#3, Del) of the Rule B witness. -/
def recW2 : Rec := ⟨some ⟨[97], 3, KType.del⟩, [97, 3, 0], []⟩

theorem ruleB_tombstone_witness : MergeEnv.base envW2 [97] = false :=
  ruleB_tombstone.2 envW2 [recW2] [[recW2]] 0 0 (by decide) [recW2] (by simp)
    recW2 (by simp) ⟨[97], 3, KType.del⟩ rfl rfl (by decide)

/-! ### Corrupt keys (claim C9) -/

/-- Claim C9: a record whose internal-key parse fails either fails the
exec attempt (strict mode) or is appended verbatim with kerrCnt
incremented and the tracking state reset so the next well-formed key is a
fresh first occurrence. -/
theorem corrupt_key_handling (env : MergeEnv) (r : Rec) (rs : List Rec) (st : LoopSt)
    (hk : r.parsed = none) (hskip : ¬ st.i < st.snap.iter) :
    (env.strict = true → go env (r :: rs) st = Out.err)
  ∧ (env.strict = false →
      go env (r :: rs) st =
        go env rs (bumpI (stepWrite env r { stepSnap st with
          hasLastUkey := false
          lastUkey := []
          lastSeq := kMaxSeq
          kerrCnt := (stepSnap st).kerrCnt + 1 }))) := by
  have hssb : stepSSB env r st = st := stepSSB_of_parsed_none env r st hk
  constructor
  · intro hstrict
    rw [go_cons]
    simp only [if_neg hskip]
    have hpw : preWrite env r st = Mid.strictErr := by
      show stepKey env r (stepSnap (stepSSB env r st)) = Mid.strictErr
      rw [hssb]
      simp only [stepKey, hk]
      rw [if_pos hstrict]
    simp only [hpw]
  · intro hstrict
    rw [go_cons]
    simp only [if_neg hskip]
    have hpw : preWrite env r st = Mid.toWrite { stepSnap st with
        hasLastUkey := false
        lastUkey := []
        lastSeq := kMaxSeq
        kerrCnt := (stepSnap st).kerrCnt + 1 } := by
      show stepKey env r (stepSnap (stepSSB env r st)) = _
      rw [hssb]
      simp only [stepKey, hk]
      rw [if_neg (by simp [hstrict])]
    simp only [hpw]

/-- The corrupt record of the C9 witness. -/
def recW9 : Rec := ⟨none, [1, 2], [3]⟩

/-- The lenient environment of the C9 witness. -/
def envW9 : MergeEnv := ⟨0, false, 2097152, fun _ => false, fun _ => false⟩

theorem corrupt_key_handling_witness :
    go envW9 [recW9] (initSt g0) =
      go envW9 [] (bumpI (stepWrite envW9 recW9 { stepSnap (initSt g0) with
        hasLastUkey := false
        lastUkey := []
        lastSeq := kMaxSeq
        kerrCnt := (stepSnap (initSt g0)).kerrCnt + 1 })) :=
  (corrupt_key_handling envW9 recW9 [] (initSt g0) rfl (by decide)).2 rfl

/-! ### Drop propagation within a user-key run (claim C10) -/

/-- A run of records of one user key below a sequence bound: each record
parses, carries user key `u`, and the sequence numbers descend strictly
(the merging iterator sorts equal user keys by decreasing sequence). -/
def ukeyRun (u : List Nat) : Nat → List Rec → Prop
  | _, [] => True
  | s, r :: rs => ∃ p, r.parsed = some p ∧ p.ukey = u ∧ p.seq < s ∧ ukeyRun u p.seq rs

/-- All records held by the attempt: the staged output tables flattened,
followed by the open writer content. -/
def allEntries (st : LoopSt) : List Rec := st.outs.flatten ++ st.tw.getD []

theorem allEntries_stepSSB (env : MergeEnv) (r : Rec) (st : LoopSt) :
    allEntries (stepSSB env r st) = allEntries st := by
  unfold stepSSB allEntries
  split
  · simp
  · rfl

theorem allEntries_stepSnap (st : LoopSt) : allEntries (stepSnap st) = allEntries st := by
  unfold allEntries
  rw [stepSnap_outs, stepSnap_tw]

theorem stepSnap_iter_cases (st : LoopSt) :
    (stepSnap st).snap.iter = st.i ∨ (stepSnap st).snap = st.snap := by
  unfold stepSnap
  split
  · left; rfl
  · right; rfl

/-- Claim C10: a dropped well-formed record still updates lastSeq to its
own sequence number; consequently, inside a contiguous run of records of
one user key with strictly descending sequences, once the tracked
lastSeq is at most minSeq every record of the run is dropped: the merge
appends nothing, dropCnt grows by the length of the run, and the tracking
state leaves the run with lastSeq still at most minSeq. -/
theorem drop_propagates_in_ukey_run :
    (∀ (env : MergeEnv) (r : Rec) (st st3 : LoopSt),
      stepKey env r st = Mid.dropped st3 →
      ∃ p, r.parsed = some p ∧ st3.lastSeq = p.seq)
  ∧ (∀ (env : MergeEnv) (u : List Nat) (recs rest : List Rec) (st : LoopSt),
      ukeyRun u st.lastSeq recs → st.hasLastUkey = true → st.lastUkey = u →
      st.lastSeq ≤ env.minSeq → ¬ st.i < st.snap.iter →
      ∃ st', go env (recs ++ rest) st = go env rest st'
        ∧ st'.dropCnt = st.dropCnt + recs.length
        ∧ allEntries st' = allEntries st
        ∧ st'.kerrCnt = st.kerrCnt
        ∧ st'.hasLastUkey = true ∧ st'.lastUkey = u ∧ st'.lastSeq ≤ env.minSeq
        ∧ ¬ st'.i < st'.snap.iter) := by
  constructor
  · intro env r st st3 h
    cases hp : r.parsed with
    | some p =>
      simp only [stepKey, hp] at h
      split at h
      · simp only [Mid.dropped.injEq] at h
        exact ⟨p, rfl, by rw [← h]⟩
      · simp at h
    | none =>
      simp only [stepKey, hp] at h
      split at h <;> simp at h
  · intro env u recs
    induction recs with
    | nil =>
      intro rest st hrun hhas huk hle hskip
      exact ⟨st, by simp, by simp, rfl, rfl, hhas, huk, hle, hskip⟩
    | cons r rs ih =>
      intro rest st hrun hhas huk hle hskip
      obtain ⟨p, hp, hpu, hps, hrun2⟩ := hrun
      have hstep := ruleA_step env r (rs ++ rest) st p hp hhas (huk.trans hpu.symm) hle hskip
      have hd := stepSSB_data env r st
      have hd2 := stepSnap_data (stepSSB env r st)
      have hle2 : p.seq ≤ env.minSeq := Nat.le_trans (Nat.le_of_lt hps) hle
      have hiter : ¬ (st.i + 1) < (stepSnap (stepSSB env r st)).snap.iter := by
        rcases stepSnap_iter_cases (stepSSB env r st) with hc | hc
        · rw [hc, stepSSB_i]
          omega
        · rw [hc, stepSSB_snap]
          omega
      obtain ⟨st', he, hdc, hae, hke, hh, hu, hl, hi⟩ :=
        ih rest (bumpI { stepSnap (stepSSB env r st) with
          lastSeq := p.seq
          dropCnt := (stepSnap (stepSSB env r st)).dropCnt + 1 })
        hrun2
        (by show (stepSnap (stepSSB env r st)).hasLastUkey = true
            rw [hd2.1, hd.1]; exact hhas)
        (by show (stepSnap (stepSSB env r st)).lastUkey = u
            rw [hd2.2.1, hd.2.1]; exact huk)
        hle2
        (by show ¬ (stepSnap (stepSSB env r st)).i + 1 <
              (stepSnap (stepSSB env r st)).snap.iter
            rw [stepSnap_i, stepSSB_i]
            exact hiter)
      refine ⟨st', ?_, ?_, ?_, ?_, hh, hu, hl, hi⟩
      · rw [show (r :: rs) ++ rest = r :: (rs ++ rest) from rfl, hstep]
        exact he
      · rw [hdc]
        show (stepSnap (stepSSB env r st)).dropCnt + 1 + rs.length = st.dropCnt + (rs.length + 1)
        rw [hd2.2.2.2.2, hd.2.2.2.2]
        omega
      · rw [hae]
        show allEntries { stepSnap (stepSSB env r st) with
          lastSeq := p.seq
          dropCnt := (stepSnap (stepSSB env r st)).dropCnt + 1 } = allEntries st
        rw [show allEntries { stepSnap (stepSSB env r st) with
            lastSeq := p.seq
            dropCnt := (stepSnap (stepSSB env r st)).dropCnt + 1 } =
          allEntries (stepSnap (stepSSB env r st)) from rfl]
        rw [allEntries_stepSnap, allEntries_stepSSB]
      · rw [hke]
        show (stepSnap (stepSSB env r st)).kerrCnt = st.kerrCnt
        rw [hd2.2.2.2.1, hd.2.2.2.1]

/-- The dropping state and run of the C10 witness: user key "a" tracked
with lastSeq = 4, minSeq = 5, and the run [(a#3), (a#2)]. -/
def stW10 : LoopSt := { initSt g0 with hasLastUkey := true, lastUkey := [97], lastSeq := 4 }

/-- The environment of the C10 witness. -/
def envW10 : MergeEnv := ⟨5, false, 2097152, fun _ => false, fun _ => false⟩

/-- The run [(a#3,"x"), (a#2,"y")] of the C10 witness. -/
def recsW10 : List Rec :=
  [⟨some ⟨[97], 3, KType.val⟩, [97, 3, 1], [120]⟩,
   ⟨some ⟨[97], 2, KType.val⟩, [97, 2, 1], [121]⟩]

theorem drop_propagates_in_ukey_run_witness :
    ∃ st', go envW10 (recsW10 ++ []) stW10 = go envW10 [] st'
      ∧ st'.dropCnt = stW10.dropCnt + recsW10.length
      ∧ allEntries st' = allEntries stW10
      ∧ st'.kerrCnt = stW10.kerrCnt
      ∧ st'.hasLastUkey = true ∧ st'.lastUkey = [97] ∧ st'.lastSeq ≤ envW10.minSeq
      ∧ ¬ st'.i < st'.snap.iter :=
  drop_propagates_in_ukey_run.2 envW10 [97] recsW10 [] stW10
    ⟨⟨[97], 3, KType.val⟩, rfl, rfl, by decide,
      ⟨[97], 2, KType.val⟩, rfl, rfl, by decide, trivial⟩
    rfl rfl (by decide) (by decide)

/-! ### The compaction error state machine (claim C4) -/

/-- The three states of `compactionError` (db_compaction.go 112-167): the
labels noerr, haserr (with the current error) and hasperr (with the
latched error). -/
inductive CEState where
  | noError
  | transient (e : Nat)
  | persistent (e : Nat)
deriving DecidableEq

/-- A value published by the transact runner on compErrSetC: nil, a
corruption error, or any other error (errors identified by a number). -/
inductive CEInput where
  | ok
  | corrupted (e : Nat)
  | other (e : Nat)
deriving DecidableEq

/-- The transition on one published value. In the noerr and haserr loops
this is the switch on the received error (lines 120-128 and 138-145); the
hasperr loop (lines 150-166) no longer receives from compErrSetC, so no
input changes the state. -/
def compErrStep : CEState → CEInput → CEState
  | CEState.noError, CEInput.ok => CEState.noError
  | CEState.noError, CEInput.corrupted e => CEState.persistent e
  | CEState.noError, CEInput.other e => CEState.transient e
  | CEState.transient _, CEInput.ok => CEState.noError
  | CEState.transient _, CEInput.corrupted e => CEState.persistent e
  | CEState.transient _, CEInput.other e => CEState.transient e
  | CEState.persistent e, _ => CEState.persistent e

/-- Claim C4: the compaction error machine implements exactly the
three-state table: from NoError or Transient, nil goes to NoError,
corruption to Persistent, any other error to Transient with the latest
error winning; and Persistent absorbs every further input for the rest of
the run. -/
theorem compErr_transition_table :
    (∀ e : Nat, compErrStep CEState.noError CEInput.ok = CEState.noError
      ∧ compErrStep CEState.noError (CEInput.corrupted e) = CEState.persistent e
      ∧ compErrStep CEState.noError (CEInput.other e) = CEState.transient e)
  ∧ (∀ e e' : Nat, compErrStep (CEState.transient e) CEInput.ok = CEState.noError
      ∧ compErrStep (CEState.transient e) (CEInput.corrupted e') = CEState.persistent e'
      ∧ compErrStep (CEState.transient e) (CEInput.other e') = CEState.transient e')
  ∧ (∀ (e : Nat) (inp : CEInput), compErrStep (CEState.persistent e) inp = CEState.persistent e)
  ∧ (∀ (e : Nat) (l : List CEInput),
      l.foldl compErrStep (CEState.persistent e) = CEState.persistent e) := by
  refine ⟨fun e => ⟨rfl, rfl, rfl⟩, fun e e' => ⟨rfl, rfl, rfl⟩, fun e inp => rfl, ?_⟩
  intro e l
  induction l with
  | nil => rfl
  | cons x xs ih => exact ih

/-! ### Abort rollback (claim C5) -/

/-- Modelled from the spec: the table file store of the storage layer.
`files` lists the registered table file numbers; `removeErr` tells which
Remove calls fail (Remove is storage-layer behaviour outside this file). -/
structure FileStore where
  files : List Nat
  removeErr : Nat → Bool

/-- Modelled from the spec: `getTableFile(num).Remove()` deletes the file
from the store or fails, leaving it unchanged. -/
def removeFile (fs : FileStore) (num : Nat) : Option FileStore :=
  if fs.removeErr num then none
  else some { fs with files := fs.files.filter (fun n => n ≠ num) }

/-- The `table@build` rollback of tableCompaction (lines 535-544): remove
every table file staged as added, stopping at (and returning) the first
Remove error. The Bool reports whether the rollback itself failed. -/
def tableBuildRollback (added : List Nat) (fs : FileStore) : FileStore × Bool :=
  match added with
  | [] => (fs, false)
  | n :: rest =>
    match removeFile fs n with
    | none => (fs, true)
    | some fs2 => tableBuildRollback rest fs2

/-- A value carried by the non-local unwind of the transact runner: the
sentinel of `compactionExitTransact`, or any other panic value. -/
inductive UnwindVal where
  | exitSentinel
  | otherValue (v : Nat)
deriving DecidableEq

/-- The deferred recover of compactionTransact (lines 176-185): on the
sentinel unwind with a registered rollback, the rollback runs, its error
is only logged, and the original value is re-panicked unchanged. -/
def transactUnwind (x : UnwindVal) (rollback : Option (FileStore → FileStore × Bool))
    (fs : FileStore) : FileStore × UnwindVal :=
  match x, rollback with
  | UnwindVal.exitSentinel, some rb => ((rb fs).1, UnwindVal.exitSentinel)
  | _, _ => (fs, x)

theorem removeFile_ok (fs : FileStore) (a : Nat) (h : fs.removeErr a = false) :
    removeFile fs a = some { fs with files := fs.files.filter (fun n => n ≠ a) } := by
  unfold removeFile
  rw [if_neg (by rw [h]; exact Bool.false_ne_true)]

theorem tableBuildRollback_not_mem (added : List Nat) :
    ∀ (fs : FileStore) (n : Nat), n ∉ fs.files →
      n ∉ (tableBuildRollback added fs).1.files := by
  induction added with
  | nil => intro fs n h; exact h
  | cons a rest ih =>
    intro fs n h
    show n ∉ (match removeFile fs a with
      | none => (fs, true)
      | some fs2 => tableBuildRollback rest fs2).1.files
    by_cases hrem : fs.removeErr a = true
    · have hnone : removeFile fs a = none := by
        unfold removeFile
        rw [if_pos hrem]
      simp only [hnone]
      exact h
    · have hfs2 := removeFile_ok fs a (by revert hrem; cases fs.removeErr a <;> simp)
      simp only [hfs2]
      refine ih _ n ?_
      intro hmem
      exact h (List.mem_filter.mp hmem).1

theorem tableBuildRollback_removes (added : List Nat) :
    ∀ (fs : FileStore), (∀ m ∈ added, fs.removeErr m = false) →
      ∀ n ∈ added, n ∉ (tableBuildRollback added fs).1.files := by
  induction added with
  | nil =>
    intro fs hok n hn
    exact absurd hn (List.not_mem_nil n)
  | cons a rest ih =>
    intro fs hok n hn
    have hra : fs.removeErr a = false := hok a (List.mem_cons_self a rest)
    show n ∉ (match removeFile fs a with
      | none => (fs, true)
      | some fs2 => tableBuildRollback rest fs2).1.files
    simp only [removeFile_ok fs a hra]
    rcases List.mem_cons.mp hn with hna | hnr
    · refine tableBuildRollback_not_mem rest _ n ?_
      intro hmem
      have hne := (List.mem_filter.mp hmem).2
      rw [hna] at hne
      simp at hne
    · refine ih _ ?_ n hnr
      intro m hm
      exact hok m (List.mem_cons_of_mem a hm)

/-- Claim C5: aborted compaction steps with a registered rollback run it
before the sentinel unwind propagates; the rollback of `table@build`
removes every table file staged as added (when the removes succeed), and
the value re-panicked is always the original abort cause, regardless of
the rollback and of its own error. -/
theorem abort_rollback_removes_added :
    (∀ (x : UnwindVal) (rollback : Option (FileStore → FileStore × Bool)) (fs : FileStore),
      (transactUnwind x rollback fs).2 = x)
  ∧ (∀ (added : List Nat) (fs : FileStore),
      (∀ m ∈ added, fs.removeErr m = false) →
      ∀ n ∈ added,
        n ∉ ((transactUnwind UnwindVal.exitSentinel
              (some (tableBuildRollback added)) fs).1).files) := by
  constructor
  · intro x rollback fs
    cases x <;> cases rollback <;> rfl
  · intro added fs hok n hn
    show n ∉ (tableBuildRollback added fs).1.files
    exact tableBuildRollback_removes added fs hok n hn

/-- The file store of the C5 witness: files 1, 2, 3 on disk, removes never
fail. -/
def fsW5 : FileStore := ⟨[1, 2, 3], fun _ => false⟩

theorem abort_rollback_removes_added_witness :
    1 ∉ ((transactUnwind UnwindVal.exitSentinel
          (some (tableBuildRollback [1, 2])) fsW5).1).files :=
  abort_rollback_removes_added.2 [1, 2] fsW5 (by intro m hm; rfl) 1 (by simp)

/-! ### Backoff (claims C6 and C7) -/

/-- backoffMin of compactionTransact, in nanoseconds (1 second). -/
def backoffMin : Nat := 1000000000

/-- backoffMax of compactionTransact, in nanoseconds (8 seconds). -/
def backoffMax : Nat := 8000000000

/-- backoffMul of compactionTransact: the constant `2 * time.Second`, a
Duration, i.e. 2000000000 nanosecond units. -/
def backoffMul : Nat := 2000000000

/-- The persistent backoff state of the retry loop: the current backoff
duration and the progress counter of the last failed attempt. -/
structure BackoffSt where
  backoff : Nat
  lastCnt : Nat
deriving DecidableEq

/-- The initial backoff state (lines 192-195). -/
def backoffInit : BackoffSt := ⟨backoffMin, 0⟩

/-- One failed-attempt backoff pass (lines 235-249): reset the backoff to
backoffMin when the progress counter advanced, wait the current backoff
(the timer Reset uses it before the update), then, while below the cap,
multiply by backoffMul (a Duration times a Duration, as in the source) and
clamp to backoffMax. Returns the wait used and the next state. -/
def backoffPass (st : BackoffSt) (cnt : Nat) : Nat × BackoffSt :=
  let b := if st.lastCnt < cnt then backoffMin else st.backoff
  let lc := if st.lastCnt < cnt then cnt else st.lastCnt
  let b2 := if b < backoffMax then
      (if backoffMax < b * backoffMul then backoffMax else b * backoffMul)
    else b
  (b, ⟨b2, lc⟩)

/-- The wait durations of n consecutive failing attempts during which the
progress counter never advances. -/
def noProgressWaits : Nat → BackoffSt → List Nat
  | 0, _ => []
  | n + 1, st => (backoffPass st st.lastCnt).1 :: noProgressWaits n (backoffPass st st.lastCnt).2

/-- Claim C6 counterexample: five failing attempts without progress wait
1s, 8s, 8s, 8s, 8s — not the claimed 1s, 2s, 4s, 8s, 8s — because the
source multiplies the backoff Duration by the Duration `2 * time.Second`,
which overshoots the cap in one step. -/
theorem backoff_sequence_counterexample :
    noProgressWaits 5 backoffInit =
      [1000000000, 8000000000, 8000000000, 8000000000, 8000000000]
  ∧ noProgressWaits 5 backoffInit ≠
      [1000000000, 2000000000, 4000000000, 8000000000, 8000000000] := by
  constructor
  · decide
  · decide

theorem noProgressWaits_capped (n : Nat) :
    ∀ lc : Nat, noProgressWaits n ⟨backoffMax, lc⟩ = List.replicate n backoffMax := by
  induction n with
  | zero => intro lc; rfl
  | succ n ih =>
    intro lc
    show (backoffPass ⟨backoffMax, lc⟩ lc).1 ::
        noProgressWaits n (backoffPass ⟨backoffMax, lc⟩ lc).2 =
      backoffMax :: List.replicate n backoffMax
    have hpass : backoffPass ⟨backoffMax, lc⟩ lc = (backoffMax, ⟨backoffMax, lc⟩) := by
      unfold backoffPass
      simp
    rw [hpass]
    rw [ih lc]

/-- Claim C6 (amended): with backoff enabled and no progress, the waits
start at 1 second and every later wait is the 8 second cap: the first
multiplication (by the 2 second Duration constant) already overshoots the
cap. -/
theorem backoff_waits_one_then_capped (n : Nat) :
    noProgressWaits (n + 1) backoffInit = backoffMin :: List.replicate n backoffMax := by
  show (backoffPass backoffInit backoffInit.lastCnt).1 ::
      noProgressWaits n (backoffPass backoffInit backoffInit.lastCnt).2 =
    backoffMin :: List.replicate n backoffMax
  have hpass : backoffPass backoffInit backoffInit.lastCnt =
      (backoffMin, ⟨backoffMax, 0⟩) := by
    unfold backoffPass backoffInit
    norm_num [backoffMin, backoffMax, backoffMul]
  rw [hpass]
  rw [noProgressWaits_capped n 0]

/-- Claim C7: when the progress counter of the failed attempt advanced
beyond the one of the last failed attempt, the wait of the next backoff is
reset to 1 second, and the recorded counter becomes the current one. -/
theorem backoff_reset_on_progress (st : BackoffSt) (cnt : Nat) (h : st.lastCnt < cnt) :
    (backoffPass st cnt).1 = backoffMin ∧ (backoffPass st cnt).2.lastCnt = cnt := by
  unfold backoffPass
  simp [h]

theorem backoff_reset_on_progress_witness :
    (backoffPass ⟨backoffMax, 3⟩ 4).1 = backoffMin ∧
    (backoffPass ⟨backoffMax, 3⟩ 4).2.lastCnt = 4 :=
  backoff_reset_on_progress ⟨backoffMax, 3⟩ 4 (by decide)

/-! ### Range compaction level selection (claim C8) -/

/-- The deepest-overlap computation of tableRangeCompaction (lines
570-577): `m := 1`, then for each index i into the level slices from
level 1 up, if that level overlaps the range, `m = i + 1`. `overlapsAt`
stands for `v.tables[level].overlaps(icmp, umin, umax, false)`, a version
query outside this file. -/
def rangeMaxLevel (numLevels : Nat) (overlapsAt : Nat → Bool) : Nat :=
  (List.range (numLevels - 1)).foldl (fun m i => if overlapsAt (i + 1) then i + 1 else m) 1

/-- The compactions run by tableRangeCompaction (lines 562-585), as the
list of (source level, noTrivial) pairs: for level at least 0, the single
compaction at that level when the session yields one; for negative level,
every level from 0 up to but excluding the computed m for which the
session yields a compaction. `yields` stands for
`getCompactionRange(level, umin, umax) != nil`, a session query outside
this file. -/
def tableRangeCompactionRuns (level : Int) (numLevels : Nat)
    (overlapsAt : Nat → Bool) (yields : Nat → Bool) : List (Nat × Bool) :=
  if 0 ≤ level then
    if yields level.toNat then [(level.toNat, true)] else []
  else
    (List.range (rangeMaxLevel numLevels overlapsAt)).filterMap
      (fun l => if yields l then some (l, true) else none)

/-- The overlap pattern of the C8 counterexample: only level 2 overlaps. -/
def ovW8 : Nat → Bool := fun l => l == 2

/-- The session of the C8 counterexample always yields a compaction. -/
def yiW8 : Nat → Bool := fun _ => true

/-- Claim C8 counterexample: with seven levels, overlap only at level 2
and a session that always yields, the deepest overlapping level is m = 2,
but range compactions run only at source levels 0 and 1 — level m itself
is not run, contradicting the claimed range 0 through m. -/
theorem range_compaction_levels_counterexample :
    rangeMaxLevel 7 ovW8 = 2
  ∧ tableRangeCompactionRuns (-1) 7 ovW8 yiW8 = [(0, true), (1, true)]
  ∧ (2, true) ∉ tableRangeCompactionRuns (-1) 7 ovW8 yiW8 := by
  refine ⟨by decide, by decide, by decide⟩

/-- Claim C8 (amended): for level < 0, letting m be the deepest level
whose tables overlap the range (the source fold starting at 1), a range
compaction with noTrivial = true is run exactly at the levels 0 up to but
excluding m for which the session yields a compaction, and every run uses
noTrivial = true. -/
theorem range_compaction_levels_amended (level : Int) (h : level < 0) (numLevels : Nat)
    (overlapsAt yields : Nat → Bool) (l : Nat) :
    ((l, true) ∈ tableRangeCompactionRuns level numLevels overlapsAt yields ↔
      (l < rangeMaxLevel numLevels overlapsAt ∧ yields l = true))
  ∧ (∀ p ∈ tableRangeCompactionRuns level numLevels overlapsAt yields, p.2 = true) := by
  have hneg : ¬ (0 ≤ level) := by omega
  constructor
  · unfold tableRangeCompactionRuns
    rw [if_neg hneg]
    constructor
    · intro hmem
      obtain ⟨a, ha, hfa⟩ := List.mem_filterMap.mp hmem
      by_cases hy : yields a = true
      · rw [if_pos hy] at hfa
        simp only [Option.some.injEq, Prod.mk.injEq] at hfa
        rw [← hfa.1]
        exact ⟨List.mem_range.mp ha, hy⟩
      · rw [if_neg hy] at hfa
        exact absurd hfa (by simp)
    · intro ⟨hlt, hy⟩
      refine List.mem_filterMap.mpr ⟨l, List.mem_range.mpr hlt, ?_⟩
      rw [if_pos hy]
  · intro p hp
    unfold tableRangeCompactionRuns at hp
    rw [if_neg hneg] at hp
    obtain ⟨a, ha, hfa⟩ := List.mem_filterMap.mp hp
    by_cases hy : yields a = true
    · rw [if_pos hy] at hfa
      simp only [Option.some.injEq] at hfa
      rw [← hfa]
    · rw [if_neg hy] at hfa
      exact absurd hfa (by simp)

theorem range_compaction_levels_amended_witness :
    (1, true) ∈ tableRangeCompactionRuns (-1) 7 ovW8 yiW8 :=
  ((range_compaction_levels_amended (-1) (by decide) 7 ovW8 yiW8 1).1).2
    ⟨by decide, rfl⟩

end LevelDB
